import Mathlib

/-!
Verification of the mkdocs-click markdown generator (`mkdocs_click/parser.py`).

The file embeds the module shallowly:

* `Cmd` models the click command objects the parser reads: a name, optional
  help texts, the usage pieces returned by `collect_usage_pieces`, the visible
  option records produced by the standard option formatter, an eagerly
  populated `commands` mapping, the `MultiCommand` flag, and a lazy registry
  (`list_commands` names plus the finite `get_command` table).  Commands form
  an inductive tree, matching the acyclicity the traversal assumes.
* `Ctx` models `click.Context`: the current command plus the chain of ancestor
  commands reachable through the `parent` back-references (nearest first).
* Text is Lean `String`; the few `str` methods the module uses
  (`splitlines`, `rstrip`, `replace("\x08", "")`, `int(...)`) are given
  explicit executable models.
* Exceptions become `Except PyError` / `Option` results: `PyError.mkClickConfig`
  is `MKClickConfigException`, `PyError.valueError` is the builtin `ValueError`
  raised by `int`, and the `none` of `parseRecursively` models the
  `AssertionError` of `_get_lazyload_commands` (or exhausted recursion fuel;
  the fuel argument only makes the general recursion structural, every
  actual tree is fully rendered for any large enough fuel).
* `_load_command` performs a dynamic import; the import system is an explicit
  environment `String → ImportResult` giving, per module path, either the
  loaded module's attribute table, a raised exception (with its formatted
  traceback text), or a `SystemExit`.
-/

namespace MkdocsClick

/-- A record of the option-listing lines click's formatter emits for one
user-facing option: its first line (flags, metavar, help) and the
continuation lines used when the help text spans several lines. -/
structure OptRecord where
  firstLine : String
  contLines : List String
deriving DecidableEq

/-- Model of a `click.BaseCommand` as read by `parser.py`.  `commands` is the
eagerly populated `commands` attribute (`getattr(cmd, "commands", {})`, absent
and empty coincide), `isMulti` the `isinstance(cmd, click.MultiCommand)` test,
`lazyNames` the result of `list_commands`, and `lazyTable` the finite table
behind `get_command`. -/
inductive Cmd : Type where
  | mk (name : String) (help : Option String) (shortHelp : Option String)
      (usagePieces : List String) (visibleOpts : List OptRecord)
      (commands : List (String × Cmd)) (isMulti : Bool)
      (lazyNames : List String) (lazyTable : List (String × Cmd)) : Cmd

def Cmd.name : Cmd → String
  | .mk n _ _ _ _ _ _ _ _ => n

def Cmd.help : Cmd → Option String
  | .mk _ h _ _ _ _ _ _ _ => h

def Cmd.shortHelp : Cmd → Option String
  | .mk _ _ h _ _ _ _ _ _ => h

def Cmd.usagePieces : Cmd → List String
  | .mk _ _ _ u _ _ _ _ _ => u

def Cmd.visibleOpts : Cmd → List OptRecord
  | .mk _ _ _ _ o _ _ _ _ => o

def Cmd.commands : Cmd → List (String × Cmd)
  | .mk _ _ _ _ _ cs _ _ _ => cs

def Cmd.isMulti : Cmd → Bool
  | .mk _ _ _ _ _ _ b _ _ => b

def Cmd.lazyNames : Cmd → List String
  | .mk _ _ _ _ _ _ _ ns _ => ns

def Cmd.lazyTable : Cmd → List (String × Cmd)
  | .mk _ _ _ _ _ _ _ _ t => t

/-- Model of `click.Context` as used here: the command being rendered and the
commands of the enclosing contexts (walked through `parent`, nearest first).
`parser.py` creates every context without `info_name`. -/
structure Ctx where
  command : Cmd
  parents : List Cmd

/-- The chain seen from a context: its own command, then its ancestors. -/
def contextChain (ctx : Ctx) : List Cmd := ctx.command :: ctx.parents

/-- The chain a freshly built `click.Context(command, parent=parent)` hands to
its child: empty for `parent=None`, else the parent's own chain. -/
def childChain : Option Ctx → List Cmd
  | none => []
  | some p => p.command :: p.parents

/-- The distinguishable outcomes of `__import__(module_path, ...)`:
success with the module's attribute table, an exception during import
(carrying the `traceback.format_exc()` text), or a `SystemExit`. -/
inductive PyObject : Type where
  | baseCommand (c : Cmd)
  | other (typeName : String)

structure PyModule where
  attrs : List (String × PyObject)

inductive ImportResult : Type where
  | ok (mod : PyModule)
  | raises (tracebackText : String)
  | systemExit

/-- The exception kinds `generate_command_docs` can raise:
`MKClickConfigException` and the builtin `ValueError` from `int`. -/
inductive PyError : Type where
  | mkClickConfig (msg : String)
  | valueError (msg : String)
deriving DecidableEq

/-! ### String helpers: the `str` methods used by the module -/

def backspace : Char := Char.ofNat 8

def newline : Char := Char.ofNat 10

/-- Models `l.replace("\x08", "")`: replacing every occurrence of the
one-character pattern by the empty string removes exactly those characters. -/
def stripBackspace (s : String) : String :=
  String.mk (s.data.filter (fun ch => ch != backspace))

/-- Models `s.rstrip(c)` for a one-character strip set. -/
def rstripChar (s : String) (c : Char) : String :=
  String.mk ((s.data.reverse.dropWhile (fun ch => ch == c)).reverse)

def pySplitlinesAux : List Char → List Char → List (List Char)
  | [], acc => if acc.isEmpty then [] else [acc.reverse]
  | ch :: rest, acc =>
    if ch == newline then acc.reverse :: pySplitlinesAux rest []
    else pySplitlinesAux rest (ch :: acc)

/-- Models `s.splitlines()` for newline-separated text: splits at each
newline and produces no extra entry after a trailing newline
(`"".splitlines() == []`, `"a\n".splitlines() == ["a"]`). -/
def pySplitlines (s : String) : List String :=
  (pySplitlinesAux s.data []).map String.mk

/-- Python truthiness of an `Optional[str]`: `None` and `""` are falsy. -/
def truthy : Option String → Bool
  | none => false
  | some s => !s.data.isEmpty

/-- Models the Python expression `a or b` on `Optional[str]` values. -/
def pyOrElse (a b : Option String) : Option String :=
  if truthy a then a else b

/-- Lexicographic comparison of character lists by code point, the order
Python uses to compare `str` values. -/
def charListLe : List Char → List Char → Bool
  | [], _ => true
  | _ :: _, [] => false
  | a :: as, b :: bs =>
    if a.val < b.val then true
    else if b.val < a.val then false
    else charListLe as bs

/-- Python `str` comparison `a <= b`. -/
def pyStrLe (a b : String) : Bool := charListLe a.data b.data

/-- Models `str()` of a `dict` of strings (plain values, as in the markdown
block options): `\x7b'key': 'value', ...\x7d`. -/
def reprDict (d : List (String × String)) : String :=
  "\x7b" ++
    String.intercalate ", "
      (d.map (fun kv => "\x27" ++ kv.1 ++ "\x27: \x27" ++ kv.2 ++ "\x27")) ++
    "\x7d"

/-- Membership test `key in d` for a dict with string keys. -/
def containsKey {β : Type} (d : List (String × β)) (key : String) : Bool :=
  d.any (fun kv => kv.1 == key)

/-- Python whitespace accepted around an integer literal (ASCII range). -/
def pySpace (c : Char) : Bool :=
  c == ' ' || c == Char.ofNat 9 || c == Char.ofNat 10 || c == Char.ofNat 11 ||
    c == Char.ofNat 12 || c == Char.ofNat 13

def digitsLoop : Nat → List Char → Option Nat
  | acc, [] => some acc
  | acc, c :: rest =>
    if c.isDigit then digitsLoop (10 * acc + (c.toNat - 48)) rest
    else if c == '_' then
      match rest with
      | [] => none
      | d :: rest2 =>
        if d.isDigit then digitsLoop (10 * acc + (d.toNat - 48)) rest2 else none
    else none

def digitsVal : List Char → Option Nat
  | [] => none
  | c :: rest => if c.isDigit then digitsLoop (c.toNat - 48) rest else none

/-- Models the builtin `int(s)` for base 10: optional surrounding whitespace,
an optional sign, then a nonempty digit run (single underscores allowed
between digits); anything else raises `ValueError`. -/
def pyInt (s : String) : Option Int :=
  let trimmed := ((s.data.dropWhile pySpace).reverse.dropWhile pySpace).reverse
  match trimmed with
  | '+' :: rest => (digitsVal rest).map (fun n => (n : Int))
  | '-' :: rest => (digitsVal rest).map (fun n => -(n : Int))
  | rest => (digitsVal rest).map (fun n => (n : Int))

/-! ### The click formatter output read by `_make_usage` / `_make_options` -/

/-- The help record click renders for the implicit `--help` option; the code
relies on it being the last line of the options section. -/
def helpOptionLine : String := "  --help  Show this message and exit."

def optRecordLines (o : OptRecord) : List String := o.firstLine :: o.contLines

/-- Models the text produced by `Command.format_options(ctx, formatter)` as a
line list: the `Options:` section header, the definition-list lines of every
user-facing option, and the implicit `--help` record last. -/
def formatOptionsLines (c : Cmd) : List String :=
  "Options:" :: ((c.visibleOpts.map optRecordLines).flatten ++ [helpOptionLine])

/-- Models `HelpFormatter.write_usage(prog, args, prefix)` in the non-wrapping
layout (`"%*s%s " % (0, prefix, prog)` followed by the args and a newline). -/
def writeUsageValue (prog args pre : String) : String :=
  pre ++ prog ++ " " ++ args ++ "\n"

/-- `ctx.command_path` of the contexts built here: every context is created
without `info_name`, so the reconstructed path is empty. -/
def commandPath (_ctx : Ctx) : String := ""

/-! ### `parser.py` itself -/

/-- `_make_header`: a markdown header at a given level
(`f"\x7b'#' * (level + 1)\x7d \x7btext\x7d"`). -/
def makeHeader (text : String) (level : Int) : String :=
  String.mk (List.replicate (level + 1).toNat '#') ++ " " ++ text

/-- `_make_title`: the first markdown lines describing a command. -/
def makeTitle (progName : String) (level : Int) : List String :=
  [makeHeader progName level, ""]

/-- `_make_description`: the command's own description, from `help` with
`short_help` as fallback (Python `or`), split into lines, with a trailing
blank line when nonempty. -/
def makeDescription (ctx : Ctx) : List String :=
  let helpString := pyOrElse ctx.command.help ctx.command.shortHelp
  if truthy helpString then pySplitlines (helpString.getD "") ++ [""] else []

/-- The `while current is not None: full_path.append(current.command.name)`
walk of `_make_usage`, over the context chain. -/
def usageWalk : List Cmd → List String
  | [] => []
  | c :: rest => c.name :: usageWalk rest

/-- The reversed walk: the full invocation path computed by `_make_usage`. -/
def commandFullPath (ctx : Ctx) : List String :=
  (usageWalk (contextChain ctx)).reverse

/-- The `usage` value of `_make_usage`: the formatter's usage string for the
command's own pieces, with trailing newlines stripped. -/
def commandUsageString (ctx : Ctx) : String :=
  rstripChar
    (writeUsageValue (commandPath ctx)
      (String.intercalate " " ctx.command.usagePieces) "")
    newline

/-- `_make_usage`: the four markdown lines built from the usage string. -/
def makeUsage (ctx : Ctx) : List String :=
  ["Usage:", "```",
    String.intercalate " " (commandFullPath ctx) ++ commandUsageString ctx,
    "```"]

/-- `_make_options`: drop the formatter's first line (the redundant
`Options:`) and last line (the `--help` record); emit nothing when nothing
remains, else the fenced `Options:` block. -/
def makeOptions (ctx : Ctx) : List String :=
  let optionLines := ((formatOptionsLines ctx.command).drop 1).dropLast
  if optionLines.isEmpty then []
  else "Options:" :: "```code" :: (optionLines ++ ["```"])

/-- `multicommand.get_command(ctx, name)`: resolution in the lazy table. -/
def getCommand (m : Cmd) (name : String) : Option Cmd :=
  List.lookup name m.lazyTable

/-- Python dict assignment `d[key] = val`: overwrite in place when the key
exists, else append. -/
def dictInsert (d : List (String × Cmd)) (key : String) (val : Cmd) :
    List (String × Cmd) :=
  if d.any (fun kv => kv.1 == key) then
    d.map (fun kv => if kv.1 = key then (key, val) else kv)
  else d ++ [(key, val)]

/-- The loop of `_get_lazyload_commands`; `none` models the
`assert command is not None` failing. -/
def lazyloadLoop (m : Cmd) : List String → List (String × Cmd) →
    Option (List (String × Cmd))
  | [], acc => some acc
  | n :: rest, acc =>
    match getCommand m n with
    | none => none
    | some cmd => lazyloadLoop m rest (dictInsert acc n cmd)

/-- `_get_lazyload_commands`: resolve every name of `list_commands`. -/
def getLazyloadCommands (m : Cmd) : Option (List (String × Cmd)) :=
  lazyloadLoop m m.lazyNames []

/-- The subcommand lookup of `_parse_recursively`:
`getattr(cmd, "commands", {})`, falling back to the lazy enumeration for an
empty mapping on a `MultiCommand`, else no children. -/
def lookupOf (c : Cmd) : Option (List (String × Cmd)) :=
  match c.commands with
  | [] => if c.isMulti then getLazyloadCommands c else some []
  | x :: xs => some (x :: xs)

/-- `sorted(lookup.values(), key=lambda item: item.name)`: a stable sort by
name (Python's sort is stable; any stable sort by the same key computes the
same list). -/
def sortedCommands (lookup : List (String × Cmd)) : List Cmd :=
  List.insertionSort (fun a b => pyStrLe a.name b.name = true)
    (lookup.map Prod.snd)

/-- The markdown fragment `_parse_recursively` emits for the node itself,
before recursing. -/
def nodeLines (progName : String) (ctx : Ctx) (level : Int) : List String :=
  makeTitle progName level ++ makeDescription ctx ++ makeUsage ctx ++
    makeOptions ctx

/-- `_parse_recursively`.  The fuel argument only bounds the recursion depth
so that the definition is structural; `none` models an `AssertionError`
escaping (or exhausted fuel). -/
def parseRecursively : Nat → String → Cmd → Option Ctx → Int →
    Option (List String)
  | 0, _, _, _, _ => none
  | Nat.succ fuel, progName, command, parent, level =>
    let ctx : Ctx := ⟨command, childChain parent⟩
    match lookupOf command with
    | none => none
    | some lookup =>
      match (sortedCommands lookup).mapM
          (fun c => parseRecursively fuel c.name c (some ctx) (level + 1)) with
      | none => none
      | some rendered =>
        some ((nodeLines progName ctx level ++ rendered.flatten).map
          stripBackspace)
termination_by structural fuel => fuel

/-! ### `_load_command` and `generate_command_docs` -/

def importFailStart (moduleName modulePath : String) : String :=
  "Failed to import \x27" ++ moduleName ++ "\x27 from \x27" ++ modulePath ++
    "\x27. "

/-- Message for an exception raised during import; it embeds the
`traceback.format_exc()` text. -/
def importRaisedMsg (moduleName modulePath tb : String) : String :=
  importFailStart moduleName modulePath ++
    "The following exception was raised:\n" ++ tb

/-- Message for a `SystemExit` during import. -/
def importExitMsg (moduleName modulePath : String) : String :=
  importFailStart moduleName modulePath ++
    "The module appeared to call sys.exit()"

/-- Message for a missing attribute on the loaded module. -/
def noAttrMsg (modulePath moduleName : String) : String :=
  "Module \x27" ++ modulePath ++ "\x27 has no attribute \x27" ++ moduleName ++
    "\x27"

/-- Message for an attribute that is not a `click.BaseCommand`; `typeName`
stands for the `str(type(parser))` text. -/
def typeMismatchMsg (modulePath typeName : String) : String :=
  "\x27" ++ modulePath ++ "\x27 of type \x27" ++ typeName ++
    "\x27 is not derived from \x27click.BaseCommand\x27"

/-- `_load_command`: import the module, look up the attribute, and check it
is a command object. -/
def loadCommand (env : String → ImportResult)
    (modulePath moduleName : String) : Except PyError Cmd :=
  match env modulePath with
  | .raises tb =>
    .error (.mkClickConfig (importRaisedMsg moduleName modulePath tb))
  | .systemExit =>
    .error (.mkClickConfig (importExitMsg moduleName modulePath))
  | .ok mod =>
    match List.lookup moduleName mod.attrs with
    | none => .error (.mkClickConfig (noAttrMsg modulePath moduleName))
    | some (.baseCommand c) => .ok c
    | some (.other ty) => .error (.mkClickConfig (typeMismatchMsg modulePath ty))

/-- The `MKClickConfigException` message for a missing required option. -/
def cfgErrMsg (option : String) (blockOptions : List (String × String)) :
    String :=
  "Parameter " ++ option ++
    " is required for mkdocs-click. Provided configuration was " ++
    reprDict blockOptions

/-- `int(block_options.get("depth", 0))`: the default is the integer `0`,
so only a present value is parsed. -/
def pyIntValue : Option String → Except PyError Int
  | none => .ok 0
  | some s =>
    match pyInt s with
    | some n => .ok n
    | none =>
      .error (.valueError
        ("invalid literal for int() with base 10: \x27" ++ s ++ "\x27"))

/-- `generate_command_docs`: check the required keys in order, parse the
depth, load the command and render it (`ok none` models the
`AssertionError` path of the traversal). -/
def generateCommandDocs (fuel : Nat) (env : String → ImportResult)
    (blockOptions : List (String × String)) :
    Except PyError (Option (List String)) :=
  if !containsKey blockOptions "module" then
    .error (.mkClickConfig (cfgErrMsg "module" blockOptions))
  else if !containsKey blockOptions "command" then
    .error (.mkClickConfig (cfgErrMsg "command" blockOptions))
  else
    let modulePath := (List.lookup "module" blockOptions).getD ""
    let command := (List.lookup "command" blockOptions).getD ""
    match pyIntValue (List.lookup "depth" blockOptions) with
    | .error e => .error e
    | .ok depth =>
      match loadCommand env modulePath command with
      | .error e => .error e
      | .ok clickCommand =>
        .ok (parseRecursively fuel command clickCommand none depth)

/-! ### Concrete fixtures (used by the witnesses) -/

/-- A leaf command with one visible option, as in the spec scenario. -/
def exAdd : Cmd :=
  Cmd.mk "add" none none ["[OPTIONS]"]
    [⟨"  -v, --verbose  Verbose output.", []⟩] [] false [] []

/-- A leaf command with no help text and no options. -/
def exZap : Cmd :=
  Cmd.mk "zap" none none ["[OPTIONS]"] [] [] false [] []

/-- A group with eagerly registered subcommands, declared out of
alphabetical order. -/
def exRoot : Cmd :=
  Cmd.mk "main" (some "Main help.") none ["[OPTIONS]", "COMMAND", "[ARGS]..."]
    [] [("zap", exZap), ("add", exAdd)] true [] []

/-- A multicommand with only a lazy registry, declared out of order. -/
def exLazy : Cmd :=
  Cmd.mk "grp" none (some "Lazy group.") ["[OPTIONS]", "COMMAND", "[ARGS]..."]
    [] [] true ["zap", "add"] [("add", exAdd), ("zap", exZap)]

/-- An import environment in which every module exits on import. -/
def exEnvExit : String → ImportResult := fun _ => ImportResult.systemExit

/-- An import environment exposing `exRoot` as attribute `main` of any module. -/
def exEnvOk : String → ImportResult :=
  fun _ => ImportResult.ok ⟨[("main", PyObject.baseCommand exRoot)]⟩

/-- The document rendered for `exRoot` (children in alphabetical order). -/
def exMainDoc : List String :=
  ["# main", "", "Main help.", "", "Usage:", "```",
    "main [OPTIONS] COMMAND [ARGS]...", "```",
    "## add", "", "Usage:", "```", "main add [OPTIONS]", "```",
    "Options:", "```code", "  -v, --verbose  Verbose output.", "```",
    "## zap", "", "Usage:", "```", "main zap [OPTIONS]", "```"]

/-! ### Basic lemmas about the text helpers -/

theorem stripBackspace_data (s : String) :
    (stripBackspace s).data = s.data.filter (fun ch => ch != backspace) := rfl

theorem backspace_not_mem_stripBackspace (s : String) :
    backspace ∉ (stripBackspace s).data := by
  intro h
  rw [stripBackspace_data, List.mem_filter] at h
  simp at h

theorem stripBackspace_idem (s : String) :
    stripBackspace (stripBackspace s) = stripBackspace s := by
  apply congrArg String.mk
  apply List.filter_eq_self.mpr
  intro a ha
  exact (List.mem_filter.mp ha).2

theorem stripBackspace_empty : stripBackspace "" = "" := rfl

theorem usageWalk_eq_map (cs : List Cmd) : usageWalk cs = cs.map Cmd.name := by
  induction cs with
  | nil => rfl
  | cons c rest ih => rw [usageWalk, ih, List.map_cons]

theorem commandFullPath_eq_chain_names (ctx : Ctx) :
    commandFullPath ctx = ((contextChain ctx).reverse).map Cmd.name := by
  rw [commandFullPath, usageWalk_eq_map, List.map_reverse]

/-! ### The comparison used by the sort agrees with the string order -/

theorem charListLe_iff_not_lex (as : List Char) : ∀ bs : List Char,
    (charListLe as bs = true ↔ ¬ List.Lex (fun a b : Char => a < b) bs as) := by
  induction as with
  | nil =>
    intro bs
    apply iff_of_true rfl
    intro h
    cases h
  | cons a as ih =>
    intro bs
    cases bs with
    | nil =>
      apply iff_of_false
      · simp [charListLe]
      · intro h
        exact h (List.Lex.nil)
    | cons b bs =>
      rcases lt_trichotomy a b with hab | heq | hba
      · have hab2 : a.val < b.val := Char.lt_iff_val_lt_val.mp hab
        apply iff_of_true
        · simp [charListLe, hab2]
        · intro h
          cases h with
          | rel hr => exact absurd hr (lt_asymm hab)
          | cons ht => exact absurd hab (lt_irrefl _)
      · subst heq
        have hstep : charListLe (a :: as) (a :: bs) = charListLe as bs := by
          simp [charListLe]
        rw [hstep, ih bs]
        constructor
        · intro hnot h
          cases h with
          | rel hr => exact absurd hr (lt_irrefl _)
          | cons ht => exact hnot ht
        · intro hnot h
          exact hnot (List.Lex.cons h)
      · have hba2 : b.val < a.val := Char.lt_iff_val_lt_val.mp hba
        have hnab : ¬ a.val < b.val := by
          intro hx
          exact absurd hba (lt_asymm (Char.lt_iff_val_lt_val.mpr hx))
        apply iff_of_false
        · simp [charListLe, hba2, hnab]
        · intro h
          exact h (List.Lex.rel hba)

theorem pyStrLe_iff_le (a b : String) : pyStrLe a b = true ↔ a ≤ b := by
  rw [pyStrLe, charListLe_iff_not_lex]
  rw [← not_lt]
  constructor
  · intro h hlt
    exact h (String.lt_iff_toList_lt.mp hlt)
  · intro h hlex
    exact h (String.lt_iff_toList_lt.mpr hlex)

instance : IsTotal Cmd (fun a b => pyStrLe a.name b.name = true) where
  total a b := by
    rcases le_total a.name b.name with h | h
    · exact Or.inl ((pyStrLe_iff_le _ _).mpr h)
    · exact Or.inr ((pyStrLe_iff_le _ _).mpr h)

instance : IsTrans Cmd (fun a b => pyStrLe a.name b.name = true) where
  trans a b c hab hbc := by
    exact (pyStrLe_iff_le _ _).mpr
      (le_trans ((pyStrLe_iff_le _ _).mp hab) ((pyStrLe_iff_le _ _).mp hbc))

theorem sortedCommands_perm (lookup : List (String × Cmd)) :
    (sortedCommands lookup).Perm (lookup.map Prod.snd) :=
  List.perm_insertionSort _ _

theorem sortedCommands_names_sorted (lookup : List (String × Cmd)) :
    List.Pairwise (fun a b : String => a ≤ b)
      ((sortedCommands lookup).map Cmd.name) := by
  rw [List.pairwise_map]
  have h := List.sorted_insertionSort
    (fun a b : Cmd => pyStrLe a.name b.name = true) (lookup.map Prod.snd)
  exact h.imp (fun hab => (pyStrLe_iff_le _ _).mp hab)

/-! ### Lemmas about the traversal -/

theorem mapM_option_some_mem {α β : Type} (f : α → Option β) :
    ∀ (l : List α) (r : List β), l.mapM f = some r →
      ∀ a ∈ l, ∃ b, f a = some b ∧ b ∈ r := by
  intro l
  induction l with
  | nil =>
    intro r _ a ha
    exact absurd ha (List.not_mem_nil a)
  | cons hd tl ih =>
    intro r h a ha
    rw [List.mapM_cons] at h
    simp only [Option.bind_eq_bind, Option.bind_eq_some, Option.pure_def,
      Option.some.injEq] at h
    obtain ⟨b, hb, bs, hbs, hr⟩ := h
    rcases List.mem_cons.mp ha with rfl | hmem
    · exact ⟨b, hb, by rw [← hr]; exact List.mem_cons_self _ _⟩
    · obtain ⟨b2, hb2, hb2r⟩ := ih bs hbs a hmem
      exact ⟨b2, hb2, by rw [← hr]; exact List.mem_cons_of_mem _ hb2r⟩

theorem parseRecursively_zero (pn : String) (c : Cmd) (parent : Option Ctx)
    (level : Int) : parseRecursively 0 pn c parent level = none := rfl

theorem parseRecursively_succ (fuel : Nat) (pn : String) (c : Cmd)
    (parent : Option Ctx) (level : Int) :
    parseRecursively (fuel + 1) pn c parent level =
      match lookupOf c with
      | none => none
      | some lookup =>
        match (sortedCommands lookup).mapM
            (fun child => parseRecursively fuel child.name child
              (some ⟨c, childChain parent⟩) (level + 1)) with
        | none => none
        | some rendered =>
          some ((nodeLines pn ⟨c, childChain parent⟩ level ++
            rendered.flatten).map stripBackspace) := rfl

theorem parse_succ_some {fuel : Nat} {pn : String} {c : Cmd}
    {parent : Option Ctx} {level : Int} {lines : List String}
    (h : parseRecursively (fuel + 1) pn c parent level = some lines) :
    ∃ lookup rendered, lookupOf c = some lookup ∧
      (sortedCommands lookup).mapM
        (fun child => parseRecursively fuel child.name child
          (some ⟨c, childChain parent⟩) (level + 1)) = some rendered ∧
      lines = (nodeLines pn ⟨c, childChain parent⟩ level ++
        rendered.flatten).map stripBackspace := by
  rw [parseRecursively_succ] at h
  split at h
  · exact absurd h (by simp)
  · rename_i lookup hl
    split at h
    · exact absurd h (by simp)
    · rename_i rendered hm
      exact ⟨lookup, rendered, hl, hm, (Option.some.inj h).symm⟩

theorem parse_some_shape {fuel : Nat} {pn : String} {c : Cmd}
    {parent : Option Ctx} {level : Int} {lines : List String}
    (h : parseRecursively fuel pn c parent level = some lines) :
    ∃ pre : List String, lines = pre.map stripBackspace := by
  cases fuel with
  | zero => rw [parseRecursively_zero] at h; exact absurd h (by simp)
  | succ fuel =>
    obtain ⟨lookup, rendered, _, _, hshape⟩ := parse_succ_some h
    exact ⟨_, hshape⟩

theorem parse_some_strip_invariant {fuel : Nat} {pn : String} {c : Cmd}
    {parent : Option Ctx} {level : Int} {lines : List String}
    (h : parseRecursively fuel pn c parent level = some lines) :
    lines.map stripBackspace = lines := by
  obtain ⟨pre, rfl⟩ := parse_some_shape h
  rw [List.map_map]
  have hfun : stripBackspace ∘ stripBackspace = stripBackspace :=
    funext stripBackspace_idem
  rw [hfun]

theorem nodeLines_eq_cons (pn : String) (ctx : Ctx) (level : Int) :
    nodeLines pn ctx level = makeHeader pn level :: "" ::
      (makeDescription ctx ++ makeUsage ctx ++ makeOptions ctx) := by
  simp [nodeLines, makeTitle]

theorem parse_some_take_two {fuel : Nat} {pn : String} {c : Cmd}
    {parent : Option Ctx} {level : Int} {lines : List String}
    (h : parseRecursively fuel pn c parent level = some lines) :
    lines.take 2 = [stripBackspace (makeHeader pn level), ""] := by
  cases fuel with
  | zero => rw [parseRecursively_zero] at h; exact absurd h (by simp)
  | succ fuel =>
    obtain ⟨lookup, rendered, _, _, hshape⟩ := parse_succ_some h
    subst hshape
    rw [nodeLines_eq_cons]
    simp [stripBackspace_empty]

theorem infix_append_right {α : Type} {x l1 l2 : List α} (h : x <:+: l2) :
    x <:+: l1 ++ l2 := by
  obtain ⟨s, t, hst⟩ := h
  exact ⟨l1 ++ s, t, by rw [← hst]; simp [List.append_assoc]⟩

/-! ### Lemmas about the lazy-subcommand dictionary -/

theorem containsKey_cons {β : Type} (k : String) (v : β)
    (d : List (String × β)) (key : String) :
    containsKey ((k, v) :: d) key = (k == key || containsKey d key) := by
  simp [containsKey]

theorem containsKey_append {β : Type} (d e : List (String × β)) (key : String) :
    containsKey (d ++ e) key = (containsKey d key || containsKey e key) := by
  simp [containsKey, List.any_append]

theorem lookup_cons_eq {β : Type} (key a : String) (b : β)
    (l : List (String × β)) :
    List.lookup key ((a, b) :: l) =
      if key = a then some b else List.lookup key l := by
  rw [List.lookup_cons]
  by_cases h : key = a
  · simp [h]
  · simp [h, beq_eq_false_iff_ne.mpr h]

theorem containsKey_iff_mem {β : Type} (d : List (String × β)) (key : String) :
    containsKey d key = true ↔ key ∈ d.map Prod.fst := by
  rw [containsKey, List.any_eq_true]
  constructor
  · intro h
    obtain ⟨kv, hkv, he⟩ := h
    exact List.mem_map.mpr ⟨kv, hkv, eq_of_beq he⟩
  · intro h
    obtain ⟨kv, hkv, he⟩ := List.mem_map.mp h
    exact ⟨kv, hkv, beq_iff_eq.mpr he⟩

theorem overwriteMap_of_not_contains (tl : List (String × Cmd)) (k : String)
    (v : Cmd) (h : containsKey tl k = false) :
    tl.map (fun kv => if kv.1 = k then (k, v) else kv) = tl := by
  induction tl with
  | nil => rfl
  | cons hd tl ih =>
    rw [containsKey_cons] at h
    rcases Bool.or_eq_false_iff.mp h with ⟨h1, h2⟩
    have hhd : hd.1 ≠ k := by
      intro he
      rw [beq_eq_false_iff_ne] at h1
      exact h1 he
    rw [List.map_cons, if_neg hhd, ih h2]

theorem dictInsert_cons (hd : String × Cmd) (tl : List (String × Cmd))
    (k : String) (v : Cmd) :
    dictInsert (hd :: tl) k v =
      if hd.1 = k then
        (k, v) :: tl.map (fun kv => if kv.1 = k then (k, v) else kv)
      else hd :: dictInsert tl k v := by
  by_cases hhd : hd.1 = k
  · rw [if_pos hhd, dictInsert]
    rw [if_pos (by simp [List.any_cons, hhd])]
    rw [List.map_cons, if_pos hhd]
  · rw [if_neg hhd, dictInsert, dictInsert]
    have hbeq : (hd.1 == k) = false := beq_eq_false_iff_ne.mpr hhd
    by_cases htl : tl.any (fun kv => kv.1 == k)
    · rw [if_pos (by simp [List.any_cons, htl]), if_pos htl]
      rw [List.map_cons, if_neg hhd]
    · have hfalse : ((hd :: tl).any (fun kv => kv.1 == k)) = false := by
        simp only [List.any_cons, Bool.or_eq_false_iff]
        exact ⟨hbeq, Bool.eq_false_iff.mpr htl⟩
      rw [if_neg (by simp [hfalse]), if_neg htl, List.cons_append]

theorem keys_overwrite (d : List (String × Cmd)) (k : String) (v : Cmd) :
    (d.map (fun kv => if kv.1 = k then (k, v) else kv)).map Prod.fst =
      d.map Prod.fst := by
  rw [List.map_map]
  apply List.map_congr_left
  intro kv _
  show (if kv.1 = k then (k, v) else kv).1 = kv.1
  by_cases hk : kv.1 = k
  · rw [if_pos hk]
    exact hk.symm
  · rw [if_neg hk]

theorem keys_dictInsert (d : List (String × Cmd)) (k : String) (v : Cmd) :
    (dictInsert d k v).map Prod.fst =
      if containsKey d k = true then d.map Prod.fst
      else d.map Prod.fst ++ [k] := by
  rw [dictInsert]
  by_cases hc : d.any (fun kv => kv.1 == k)
  · rw [if_pos hc, if_pos (by simpa [containsKey] using hc), keys_overwrite]
  · rw [if_neg hc, if_neg (by simpa [containsKey] using hc), List.map_append]
    rfl

theorem containsKey_dictInsert (d : List (String × Cmd)) (k key : String)
    (v : Cmd) :
    containsKey (dictInsert d k v) key = true ↔
      key = k ∨ containsKey d key = true := by
  rw [containsKey_iff_mem, containsKey_iff_mem, keys_dictInsert]
  by_cases hc : containsKey d k = true
  · rw [if_pos hc]
    constructor
    · intro h
      exact Or.inr h
    · intro h
      rcases h with rfl | h
      · exact (containsKey_iff_mem d key).mp hc
      · exact h
  · rw [if_neg hc, List.mem_append]
    simp only [List.mem_singleton]
    exact Or.comm

theorem lookup_dictInsert_self (d : List (String × Cmd)) (k : String)
    (v : Cmd) : List.lookup k (dictInsert d k v) = some v := by
  induction d with
  | nil =>
    show List.lookup k [(k, v)] = some v
    rw [lookup_cons_eq, if_pos rfl]
  | cons hd tl ih =>
    rw [dictInsert_cons]
    by_cases hhd : hd.1 = k
    · rw [if_pos hhd, lookup_cons_eq, if_pos rfl]
    · rw [if_neg hhd]
      rcases hd with ⟨a, b⟩
      rw [lookup_cons_eq, if_neg (fun he : k = a => hhd he.symm), ih]

theorem lookup_dictInsert_ne (d : List (String × Cmd)) (k key : String)
    (v : Cmd) (h : key ≠ k) :
    List.lookup key (dictInsert d k v) = List.lookup key d := by
  induction d with
  | nil =>
    show List.lookup key [(k, v)] = List.lookup key []
    rw [lookup_cons_eq, if_neg h]
  | cons hd tl ih =>
    rcases hd with ⟨a, b⟩
    rw [dictInsert_cons]
    by_cases hhd : a = k
    · rw [if_pos hhd, lookup_cons_eq, lookup_cons_eq]
      rw [if_neg (fun he : key = k => h he)]
      rw [if_neg (fun he : key = a => h (hhd ▸ he))]
      by_cases htl : containsKey tl k = true
      · have hmap : tl.map (fun kv => if kv.1 = k then (k, v) else kv) =
            dictInsert tl k v := by
          rw [dictInsert, if_pos (by simpa [containsKey] using htl)]
        rw [hmap, ih]
      · rw [overwriteMap_of_not_contains tl k v (Bool.eq_false_iff.mpr htl)]
    · rw [if_neg hhd, lookup_cons_eq, lookup_cons_eq]
      by_cases hka : key = a
      · rw [if_pos hka, if_pos hka]
      · rw [if_neg hka, if_neg hka, ih]

theorem lazyloadLoop_sound (m : Cmd) (names : List String) :
    ∀ acc : List (String × Cmd),
      (∀ n ∈ names, (getCommand m n).isSome = true) →
      ∃ d, lazyloadLoop m names acc = some d ∧
        (∀ key, containsKey d key = true ↔
          key ∈ names ∨ containsKey acc key = true) ∧
        (∀ key ∈ names, List.lookup key d = getCommand m key) ∧
        (∀ key, key ∉ names → List.lookup key d = List.lookup key acc) := by
  induction names with
  | nil =>
    intro acc _
    refine ⟨acc, rfl, ?_, ?_, fun _ _ => rfl⟩
    · intro key
      simp
    · intro key hk
      exact absurd hk (List.not_mem_nil key)
  | cons n rest ih =>
    intro acc h
    have hn := h n (List.mem_cons_self n rest)
    obtain ⟨v, hv⟩ := Option.isSome_iff_exists.mp hn
    have hrest : ∀ x ∈ rest, (getCommand m x).isSome = true :=
      fun x hx => h x (List.mem_cons_of_mem _ hx)
    obtain ⟨d, hd, hck, hkin, hkout⟩ := ih (dictInsert acc n v) hrest
    refine ⟨d, ?_, ?_, ?_, ?_⟩
    · rw [lazyloadLoop, hv]
      exact hd
    · intro key
      rw [hck key, List.mem_cons]
      constructor
      · intro hcase
        rcases hcase with hmem | hins
        · exact Or.inl (Or.inr hmem)
        · rcases (containsKey_dictInsert acc n key v).mp hins with rfl | hacc
          · exact Or.inl (Or.inl rfl)
          · exact Or.inr hacc
      · intro hcase
        rcases hcase with (hke | hmem) | hacc
        · exact Or.inr ((containsKey_dictInsert acc n key v).mpr (Or.inl hke))
        · exact Or.inl hmem
        · exact Or.inr ((containsKey_dictInsert acc n key v).mpr (Or.inr hacc))
    · intro key hkey
      rcases List.mem_cons.mp hkey with rfl | hmem
      · by_cases hkr : key ∈ rest
        · exact hkin key hkr
        · rw [hkout key hkr, lookup_dictInsert_self, hv]
      · exact hkin key hmem
    · intro key hkey
      have hkn : key ≠ n := fun hkk => hkey (hkk ▸ List.mem_cons_self n rest)
      have hkr : key ∉ rest := fun hr => hkey (List.mem_cons_of_mem _ hr)
      rw [hkout key hkr, lookup_dictInsert_ne acc n key v hkn]

/-! ### Lemmas about the option block -/

theorem optionLines_eq (c : Cmd) :
    ((formatOptionsLines c).drop 1).dropLast =
      (c.visibleOpts.map optRecordLines).flatten := by
  rw [formatOptionsLines]
  rw [List.drop_one, List.tail_cons, List.dropLast_concat]

theorem optionLines_length_ge (opts : List OptRecord) :
    opts.length ≤ ((opts.map optRecordLines).flatten).length := by
  induction opts with
  | nil => simp
  | cons o rest ih =>
    rw [List.map_cons, List.flatten_cons, List.length_append, List.length_cons]
    calc rest.length + 1 ≤ ((rest.map optRecordLines).flatten).length + 1 :=
          Nat.add_le_add_right ih 1
      _ ≤ (optRecordLines o).length + ((rest.map optRecordLines).flatten).length := by
          rw [optRecordLines, List.length_cons]
          omega

theorem optionLines_length_eq (opts : List OptRecord)
    (h : ∀ o ∈ opts, o.contLines = []) :
    ((opts.map optRecordLines).flatten).length = opts.length := by
  induction opts with
  | nil => simp
  | cons o rest ih =>
    rw [List.map_cons, List.flatten_cons, List.length_append, List.length_cons]
    rw [optRecordLines, h o (List.mem_cons_self o rest), List.length_cons,
      List.length_nil]
    rw [ih (fun x hx => h x (List.mem_cons_of_mem _ hx))]
    omega

/-! ### String distinctness helpers for the loader messages -/

theorem string_head_append (s t : String) (c : Char)
    (h : s.data.head? = some c) : (s ++ t).data.head? = some c := by
  rw [String.data_append]
  rw [List.head?_append_of_ne_nil]
  · exact h
  · intro hnil
    rw [hnil] at h
    exact absurd h (by simp)

theorem string_ne_of_head_ne {s t : String} {c d : Char}
    (hs : s.data.head? = some c) (ht : t.data.head? = some d) (h : c ≠ d) :
    s ≠ t := by
  intro he
  rw [he] at hs
  rw [hs] at ht
  exact h (Option.some.inj ht)

/-! ### Claim theorems -/

/-- C1: for every context, `_make_usage` emits exactly four lines: the literal
`Usage:`, a fenced code block opener, a single line equal to the full
invocation path (the command names from the root to the current command,
space-joined, obtained by walking the parent chain from the current context
to the root and reversing) followed by the command's own usage-piece string,
and a fenced code block closer. -/
theorem c1_usage_fragment (ctx : Ctx) :
    makeUsage ctx =
      ["Usage:", "```",
        String.intercalate " " (((contextChain ctx).reverse).map Cmd.name) ++
          commandUsageString ctx,
        "```"] ∧
    (makeUsage ctx).length = 4 := by
  constructor
  · rw [makeUsage, commandFullPath_eq_chain_names]
  · rfl

/-- C8: the invocation path reconstructed by `_make_usage` for a command at
depth `D` below the root (`D` enclosing contexts) consists of exactly `D + 1`
space-joined segments and matches the chain of command names from the root to
that command. -/
theorem c8_usage_path_depth (ctx : Ctx) :
    (commandFullPath ctx).length = ctx.parents.length + 1 ∧
    commandFullPath ctx = ((contextChain ctx).reverse).map Cmd.name := by
  constructor
  · rw [commandFullPath, List.length_reverse, usageWalk_eq_map,
      List.length_map, contextChain, List.length_cons]
  · exact commandFullPath_eq_chain_names ctx

/-- C4: a command with zero user-facing options (the implicit `--help` flag
excluded) yields no options block from `_make_options`; with `N ≥ 1` visible
options it yields the literal `Options:`, a ````code` opener, at
least `N` option-listing lines (exactly `N` when no option help spans
several lines), and a fence closer. -/
theorem c4_options_block (ctx : Ctx) :
    (ctx.command.visibleOpts = [] → makeOptions ctx = []) ∧
    (ctx.command.visibleOpts ≠ [] →
      makeOptions ctx =
        "Options:" :: "```code" ::
          (((ctx.command.visibleOpts.map optRecordLines).flatten) ++ ["```"]) ∧
      ctx.command.visibleOpts.length ≤
        ((ctx.command.visibleOpts.map optRecordLines).flatten).length ∧
      ((∀ o ∈ ctx.command.visibleOpts, o.contLines = []) →
        ((ctx.command.visibleOpts.map optRecordLines).flatten).length =
          ctx.command.visibleOpts.length)) := by
  constructor
  · intro hempty
    rw [makeOptions, optionLines_eq, hempty]
    rfl
  · intro hne
    refine ⟨?_, optionLines_length_ge _, optionLines_length_eq _⟩
    rw [makeOptions, optionLines_eq]
    have hflat : ((ctx.command.visibleOpts.map optRecordLines).flatten).isEmpty
        = false := by
      cases hopts : ctx.command.visibleOpts with
      | nil => exact absurd hopts hne
      | cons o rest =>
        rw [List.map_cons, List.flatten_cons, optRecordLines]
        rfl
    rw [if_neg (by simp [hflat])]

/-- C9: for a multicommand whose eager `commands` mapping is empty, the
subcommand lookup is the lazy enumeration; when the getter resolves every
declared name, the enumeration's assertion never fires and the returned
mapping binds exactly the declared names to their resolved commands; a node
that is neither lazily resolvable nor eagerly populated yields an empty
mapping. -/
theorem c9_lazy_enumeration :
    (∀ m : Cmd, (∀ n ∈ m.lazyNames, (getCommand m n).isSome = true) →
      ∃ d, getLazyloadCommands m = some d ∧
        (∀ key, containsKey d key = true ↔ key ∈ m.lazyNames) ∧
        (∀ key ∈ m.lazyNames, List.lookup key d = getCommand m key)) ∧
    (∀ c : Cmd, c.commands = [] → c.isMulti = true →
      lookupOf c = getLazyloadCommands c) ∧
    (∀ c : Cmd, c.commands = [] → c.isMulti = false →
      lookupOf c = some []) := by
  refine ⟨?_, ?_, ?_⟩
  · intro m h
    obtain ⟨d, hd, hck, hkin, _⟩ := lazyloadLoop_sound m m.lazyNames [] h
    refine ⟨d, hd, ?_, hkin⟩
    intro key
    rw [hck key]
    simp [containsKey]
  · intro c hcmds hmulti
    rw [lookupOf, hcmds]
    simp [hmulti]
  · intro c hcmds hmulti
    rw [lookupOf, hcmds]
    simp [hmulti]

/-- C7: no line of the output of `_parse_recursively` (and hence of
`generate_command_docs`) contains a backspace control character: every
backspace in collected text is stripped before emission. -/
theorem c7_no_backspace :
    (∀ (fuel : Nat) (pn : String) (c : Cmd) (parent : Option Ctx)
      (level : Int) (lines : List String),
      parseRecursively fuel pn c parent level = some lines →
      ∀ l ∈ lines, backspace ∉ l.data) ∧
    (∀ (fuel : Nat) (env : String → ImportResult)
      (cfg : List (String × String)) (lines : List String),
      generateCommandDocs fuel env cfg = Except.ok (some lines) →
      ∀ l ∈ lines, backspace ∉ l.data) := by
  have hmain : ∀ (fuel : Nat) (pn : String) (c : Cmd) (parent : Option Ctx)
      (level : Int) (lines : List String),
      parseRecursively fuel pn c parent level = some lines →
      ∀ l ∈ lines, backspace ∉ l.data := by
    intro fuel pn c parent level lines h l hl
    obtain ⟨pre, rfl⟩ := parse_some_shape h
    obtain ⟨x, _, rfl⟩ := List.mem_map.mp hl
    exact backspace_not_mem_stripBackspace x
  refine ⟨hmain, ?_⟩
  intro fuel env cfg lines h
  rw [generateCommandDocs] at h
  split at h
  · exact absurd h (by simp)
  · split at h
    · exact absurd h (by simp)
    · split at h
      · exact absurd h (by simp)
      · dsimp only [] at h
        split at h
        · exact absurd h (by simp)
        · exact hmain _ _ _ _ _ _ (Except.ok.inj h)

/-- Witness for C4 at the one-option command `add`. -/
theorem c4_options_block_witness :
    makeOptions ⟨exAdd, []⟩ =
      "Options:" :: "```code" ::
        (((Cmd.visibleOpts exAdd).map optRecordLines).flatten ++ ["```"]) :=
  ((c4_options_block ⟨exAdd, []⟩).2 (by decide)).1

/-- Witness for C9 at the lazy group `grp`. -/
theorem c9_lazy_enumeration_witness :
    ∃ d, getLazyloadCommands exLazy = some d ∧
      (∀ key, containsKey d key = true ↔ key ∈ exLazy.lazyNames) ∧
      (∀ key ∈ exLazy.lazyNames, List.lookup key d = getCommand exLazy key) :=
  c9_lazy_enumeration.1 exLazy (by decide)

/-- Witness for C7 on a rendered line of the `main` example tree. -/
theorem c7_no_backspace_witness :
    backspace ∉ ("main [OPTIONS] COMMAND [ARGS]..." : String).data :=
  c7_no_backspace.1 2 "main" exRoot none 0 exMainDoc (by decide)
    "main [OPTIONS] COMMAND [ARGS]..." (by decide)

/-- C2: whenever `_parse_recursively` renders a node, the children it recurses
into are the subcommand lookup's values sorted into ascending alphabetical
order by name — a permutation of the declared children, independent of
declaration order — and the output is the node's own fragment followed by the
children's fragments in exactly that order. -/
theorem c2_children_sorted (fuel : Nat) (pn : String) (c : Cmd)
    (parent : Option Ctx) (level : Int) (lines : List String)
    (h : parseRecursively (fuel + 1) pn c parent level = some lines) :
    ∃ lookup rendered, lookupOf c = some lookup ∧
      List.Pairwise (fun a b : String => a ≤ b)
        ((sortedCommands lookup).map Cmd.name) ∧
      (sortedCommands lookup).Perm (lookup.map Prod.snd) ∧
      (sortedCommands lookup).mapM
        (fun child => parseRecursively fuel child.name child
          (some ⟨c, childChain parent⟩) (level + 1)) = some rendered ∧
      lines = (nodeLines pn ⟨c, childChain parent⟩ level ++
        rendered.flatten).map stripBackspace := by
  obtain ⟨lookup, rendered, hl, hm, hshape⟩ := parse_succ_some h
  exact ⟨lookup, rendered, hl, sortedCommands_names_sorted lookup,
    sortedCommands_perm lookup, hm, hshape⟩

/-- Witness for C2 on the `main` example tree with out-of-order children. -/
theorem c2_children_sorted_witness :
    ∃ lookup rendered, lookupOf exRoot = some lookup ∧
      List.Pairwise (fun a b : String => a ≤ b)
        ((sortedCommands lookup).map Cmd.name) ∧
      (sortedCommands lookup).Perm (lookup.map Prod.snd) ∧
      (sortedCommands lookup).mapM
        (fun child => parseRecursively 1 child.name child
          (some ⟨exRoot, childChain none⟩) (0 + 1)) = some rendered ∧
      exMainDoc = (nodeLines "main" ⟨exRoot, childChain none⟩ 0 ++
        rendered.flatten).map stripBackspace :=
  c2_children_sorted 1 "main" exRoot none 0 exMainDoc (by decide)

/-- C3: every rendered node's fragment starts with a markdown header of
`nesting_level + 1` hash characters followed by the display name and a blank
line; each direct child is rendered at `level + 1`, its fragment appearing
inside the parent's output; and `generate_command_docs` renders the root at
the configured starting depth. -/
theorem c3_header_levels :
    (∀ (pn : String) (level : Int), 0 ≤ level →
      (makeHeader pn level).data =
        List.replicate (level.toNat + 1) '#' ++ (' ' :: pn.data)) ∧
    (∀ (fuel : Nat) (pn : String) (c : Cmd) (parent : Option Ctx)
      (level : Int) (lines : List String),
      parseRecursively fuel pn c parent level = some lines →
      lines.take 2 = [stripBackspace (makeHeader pn level), ""]) ∧
    (∀ (fuel : Nat) (pn : String) (c : Cmd) (parent : Option Ctx)
      (level : Int) (lines : List String) (lookup : List (String × Cmd)),
      parseRecursively (fuel + 1) pn c parent level = some lines →
      lookupOf c = some lookup →
      ∀ child ∈ sortedCommands lookup,
        ∃ clines, parseRecursively fuel child.name child
            (some ⟨c, childChain parent⟩) (level + 1) = some clines ∧
          clines.take 2 =
            [stripBackspace (makeHeader child.name (level + 1)), ""] ∧
          clines <:+: lines) ∧
    (∀ (fuel : Nat) (env : String → ImportResult)
      (cfg : List (String × String)) (d : Int) (c : Cmd),
      containsKey cfg "module" = true → containsKey cfg "command" = true →
      pyIntValue (List.lookup "depth" cfg) = Except.ok d →
      loadCommand env ((List.lookup "module" cfg).getD "")
        ((List.lookup "command" cfg).getD "") = Except.ok c →
      generateCommandDocs fuel env cfg =
        Except.ok (parseRecursively fuel
          ((List.lookup "command" cfg).getD "") c none d)) := by
  refine ⟨?_, ?_, ?_, ?_⟩
  · intro pn level h0
    have h1 : (level + 1).toNat = level.toNat + 1 := by omega
    rw [makeHeader, h1, String.data_append, String.data_append,
      List.append_assoc]
    rfl
  · intro fuel pn c parent level lines h
    exact parse_some_take_two h
  · intro fuel pn c parent level lines lookup h hlk child hmem
    obtain ⟨lookup2, rendered, hl2, hm, hshape⟩ := parse_succ_some h
    have : lookup2 = lookup := Option.some.inj (hl2 ▸ hlk)
    subst this
    obtain ⟨clines, hc, hcr⟩ := mapM_option_some_mem _ _ _ hm child hmem
    refine ⟨clines, hc, parse_some_take_two hc, ?_⟩
    have hstrip : clines.map stripBackspace = clines :=
      parse_some_strip_invariant hc
    subst hshape
    rw [List.map_append]
    apply infix_append_right
    rw [List.map_flatten]
    have hmem2 := List.mem_map_of_mem (List.map stripBackspace) hcr
    rw [hstrip] at hmem2
    exact List.infix_of_mem_flatten hmem2
  · intro fuel env cfg d c hm hc hdep hload
    rw [generateCommandDocs]
    rw [hm, hc]
    dsimp only []
    rw [hdep]
    dsimp only []
    rw [hload]
    simp

/-- Witness for C3: the example document opens with the level-zero header. -/
theorem c3_header_levels_witness :
    exMainDoc.take 2 = [stripBackspace (makeHeader "main" 0), ""] :=
  c3_header_levels.2.1 2 "main" exRoot none 0 exMainDoc (by decide)

/-- C5: a configuration missing `module` (or `command`) makes
`generate_command_docs` raise the configuration error naming the missing key
and echoing the whole received configuration, for every import environment —
so before any import is attempted. -/
theorem c5_missing_required_key (fuel : Nat) (env : String → ImportResult)
    (cfg : List (String × String)) :
    (containsKey cfg "module" = false →
      generateCommandDocs fuel env cfg =
        Except.error (PyError.mkClickConfig (cfgErrMsg "module" cfg))) ∧
    (containsKey cfg "module" = true → containsKey cfg "command" = false →
      generateCommandDocs fuel env cfg =
        Except.error (PyError.mkClickConfig (cfgErrMsg "command" cfg))) ∧
    (∀ key : String, key.data <:+: (cfgErrMsg key cfg).data ∧
      (reprDict cfg).data <:+ (cfgErrMsg key cfg).data) := by
  refine ⟨?_, ?_, ?_⟩
  · intro h
    rw [generateCommandDocs, h]
    rfl
  · intro h1 h2
    rw [generateCommandDocs, h1, h2]
    rfl
  · intro key
    constructor
    · exact ⟨("Parameter " : String).data,
        (" is required for mkdocs-click. Provided configuration was "
          : String).data ++ (reprDict cfg).data,
        by simp [cfgErrMsg, String.data_append, List.append_assoc]⟩
    · exact ⟨("Parameter " : String).data ++ key.data ++
        (" is required for mkdocs-click. Provided configuration was "
          : String).data,
        by simp [cfgErrMsg, String.data_append, List.append_assoc]⟩

/-- Witness for C5: a configuration with only `module` is rejected naming
`command`. -/
theorem c5_missing_required_key_witness :
    generateCommandDocs 1 exEnvExit [("module", "pkg.cli")] =
      Except.error (PyError.mkClickConfig
        (cfgErrMsg "command" [("module", "pkg.cli")])) :=
  (c5_missing_required_key 1 exEnvExit [("module", "pkg.cli")]).2.1
    (by decide) (by decide)

/-- C10: a present `depth` value that is not a decimal-integer string makes
`generate_command_docs` raise the builtin integer-conversion error (not the
configuration-error exception), for every import environment — before any
import; an absent `depth` defaults the starting level to `0`. -/
theorem c10_depth_parse (fuel : Nat) (env : String → ImportResult)
    (cfg : List (String × String)) :
    (∀ s : String, containsKey cfg "module" = true →
      containsKey cfg "command" = true →
      List.lookup "depth" cfg = some s → pyInt s = none →
      generateCommandDocs fuel env cfg =
        Except.error (PyError.valueError
          ("invalid literal for int() with base 10: \x27" ++ s ++ "\x27")) ∧
      ∀ m : String, PyError.valueError
          ("invalid literal for int() with base 10: \x27" ++ s ++ "\x27") ≠
        PyError.mkClickConfig m) ∧
    (containsKey cfg "module" = true → containsKey cfg "command" = true →
      List.lookup "depth" cfg = none →
      ∀ c : Cmd, loadCommand env ((List.lookup "module" cfg).getD "")
          ((List.lookup "command" cfg).getD "") = Except.ok c →
      generateCommandDocs fuel env cfg =
        Except.ok (parseRecursively fuel
          ((List.lookup "command" cfg).getD "") c none 0)) := by
  constructor
  · intro s hm hc hdep hint
    constructor
    · rw [generateCommandDocs, hm, hc]
      dsimp only []
      rw [hdep, pyIntValue, hint]
      simp
    · intro m hne
      exact PyError.noConfusion hne
  · intro hm hc hdep c hload
    rw [generateCommandDocs, hm, hc]
    dsimp only []
    rw [hdep]
    show (match pyIntValue none with
      | Except.error e => Except.error e
      | Except.ok depth =>
        match loadCommand env ((List.lookup "module" cfg).getD "")
            ((List.lookup "command" cfg).getD "") with
        | Except.error e => Except.error e
        | Except.ok clickCommand =>
          Except.ok (parseRecursively fuel ((List.lookup "command" cfg).getD "")
            clickCommand none depth)) = _
    rw [pyIntValue]
    dsimp only []
    rw [hload]

/-- Witness for C10 on a malformed depth value. -/
theorem c10_depth_parse_witness :
    generateCommandDocs 1 exEnvExit
      [("module", "pkg.cli"), ("command", "main"), ("depth", "x7")] =
      Except.error (PyError.valueError
        ("invalid literal for int() with base 10: \x27x7\x27")) :=
  ((c10_depth_parse 1 exEnvExit
      [("module", "pkg.cli"), ("command", "main"), ("depth", "x7")]).1
    "x7" (by decide) (by decide) (by decide) (by decide)).1

/-- C6: `_load_command` fails in exactly four distinguishable ways — an
exception during import (message embeds the formatted traceback), a
`SystemExit` during import (distinct message), a missing attribute, and an
attribute that is not a command object (message reports the type found) —
and returns the command object on success; the four messages are pairwise
distinct. -/
theorem c6_load_command (env : String → ImportResult) (mp mn : String) :
    (∀ tb, env mp = ImportResult.raises tb →
      loadCommand env mp mn =
        Except.error (PyError.mkClickConfig (importRaisedMsg mn mp tb)) ∧
      tb.data <:+ (importRaisedMsg mn mp tb).data) ∧
    (env mp = ImportResult.systemExit →
      loadCommand env mp mn =
        Except.error (PyError.mkClickConfig (importExitMsg mn mp))) ∧
    (∀ mod, env mp = ImportResult.ok mod →
      List.lookup mn mod.attrs = none →
      loadCommand env mp mn =
        Except.error (PyError.mkClickConfig (noAttrMsg mp mn))) ∧
    (∀ mod ty, env mp = ImportResult.ok mod →
      List.lookup mn mod.attrs = some (PyObject.other ty) →
      loadCommand env mp mn =
        Except.error (PyError.mkClickConfig (typeMismatchMsg mp ty))) ∧
    (∀ mod c, env mp = ImportResult.ok mod →
      List.lookup mn mod.attrs = some (PyObject.baseCommand c) →
      loadCommand env mp mn = Except.ok c) ∧
    (∀ tb ty,
      importRaisedMsg mn mp tb ≠ importExitMsg mn mp ∧
      importRaisedMsg mn mp tb ≠ noAttrMsg mp mn ∧
      importRaisedMsg mn mp tb ≠ typeMismatchMsg mp ty ∧
      importExitMsg mn mp ≠ noAttrMsg mp mn ∧
      importExitMsg mn mp ≠ typeMismatchMsg mp ty ∧
      noAttrMsg mp mn ≠ typeMismatchMsg mp ty) := by
  have hheadR : ∀ tb, (importRaisedMsg mn mp tb).data.head? = some 'F' := by
    intro tb
    rw [importRaisedMsg, importFailStart]
    repeat apply string_head_append
    rfl
  have hheadE : (importExitMsg mn mp).data.head? = some 'F' := by
    rw [importExitMsg, importFailStart]
    repeat apply string_head_append
    rfl
  have hheadN : (noAttrMsg mp mn).data.head? = some 'M' := by
    rw [noAttrMsg]
    repeat apply string_head_append
    rfl
  have hheadT : ∀ ty, (typeMismatchMsg mp ty).data.head? =
      some (Char.ofNat 39) := by
    intro ty
    rw [typeMismatchMsg]
    repeat apply string_head_append
    rfl
  refine ⟨?_, ?_, ?_, ?_, ?_, ?_⟩
  · intro tb henv
    constructor
    · rw [loadCommand, henv]
    · rw [importRaisedMsg, String.data_append]
      exact List.suffix_append _ _
  · intro henv
    rw [loadCommand, henv]
  · intro mod henv hattr
    rw [loadCommand, henv]
    dsimp only []
    rw [hattr]
  · intro mod ty henv hattr
    rw [loadCommand, henv]
    dsimp only []
    rw [hattr]
  · intro mod c henv hattr
    rw [loadCommand, henv]
    dsimp only []
    rw [hattr]
  · intro tb ty
    refine ⟨?_, ?_, ?_, ?_, ?_, ?_⟩
    · intro he
      have hd := congrArg String.data he
      rw [importRaisedMsg, importExitMsg, String.data_append,
        String.data_append, String.data_append, List.append_assoc] at hd
      have hd2 := (List.append_right_inj _).mp hd
      have ht5 := congrArg (List.take 5) hd2
      rw [List.take_append_of_le_length (by decide)] at ht5
      exact absurd ht5 (by decide)
    · exact string_ne_of_head_ne (hheadR tb) hheadN (by decide)
    · exact string_ne_of_head_ne (hheadR tb) (hheadT ty) (by decide)
    · exact string_ne_of_head_ne hheadE hheadN (by decide)
    · exact string_ne_of_head_ne hheadE (hheadT ty) (by decide)
    · exact string_ne_of_head_ne hheadN (hheadT ty) (by decide)

/-- Witness for C6: an import environment that exits on import yields the
distinct `sys.exit` configuration error. -/
theorem c6_load_command_witness :
    loadCommand exEnvExit "pkg.cli" "main" =
      Except.error (PyError.mkClickConfig (importExitMsg "main" "pkg.cli")) :=
  (c6_load_command exEnvExit "pkg.cli" "main").2.1 rfl

end MkdocsClick
